import Mathlib

set_option maxHeartbeats 1000000

/-!
Shallow embedding of the RustLike spatial-reasoning core
(roguelike_core: map.rs, movement.rs, utils.rs) and proofs about the
claims of its specification.

Conventions of the embedding:
* Rust `i32` values are modelled as `Int` (no arithmetic here approaches
  the 32-bit range), `usize` radii as `Nat`.
* Grid reads `self.tiles[x as usize][y as usize]` are modelled by
  `Map.tileOpt`, which is `none` exactly when the Rust indexing would be
  out of the array (a panic).  Where the source guards a read with
  `is_within_bounds` the guard is reproduced, so the read always
  succeeds; the total wrapper `Map.tileD` (defaulting to `Tile.empty`)
  is used there.
* The tcod `Line` iterator (an external crate used by `utils::distance`
  and `map.rs`'s `line`) is embedded as `line`: the Bresenham walk of
  libtcod, yielding every grid point after the start up to and including
  the destination.
-/

namespace RL

/-- Edge-wall classification, map.rs `enum Wall`. -/
inductive Wall where
  | Empty
  | ShortWall
  | TallWall
deriving DecidableEq

/-- map.rs `enum TileType`. -/
inductive TileType where
  | Empty
  | ShortWall
  | Wall
  | Water
  | Exit
deriving DecidableEq

/-- map.rs `enum Surface`. -/
inductive Surface where
  | Floor
  | Rubble
  | Grass
deriving DecidableEq

/-- map.rs `struct Tile`. -/
structure Tile where
  blocked : Bool
  block_sight : Bool
  explored : Bool
  tile_type : TileType
  bottom_wall : Wall
  left_wall : Wall
  chr : Nat
  surface : Surface
deriving DecidableEq

/-- map.rs `Tile::empty`. -/
def Tile.empty : Tile :=
  ⟨false, false, false, TileType.Empty, Wall.Empty, Wall.Empty, 32, Surface.Floor⟩

/-- map.rs `Tile::water`. -/
def Tile.water : Tile :=
  ⟨true, false, false, TileType.Water, Wall.Empty, Wall.Empty, 32, Surface.Floor⟩

/-- map.rs `Tile::wall` (via `wall_with(' ')`). -/
def Tile.wall : Tile :=
  ⟨true, true, false, TileType.Wall, Wall.Empty, Wall.Empty, 32, Surface.Floor⟩

/-- map.rs `Tile::short_wall` (via `short_wall_with(' ')`). -/
def Tile.short_wall : Tile :=
  ⟨true, false, false, TileType.ShortWall, Wall.Empty, Wall.Empty, 32, Surface.Floor⟩

/-- Grid coordinate, the euclid `Pos` (`Point2D<i32>`) of types.rs. -/
structure Pos where
  x : Int
  y : Int
deriving DecidableEq

/-- utils.rs `add_pos`. -/
def add_pos (p q : Pos) : Pos := ⟨p.x + q.x, p.y + q.y⟩

/-- utils.rs `sub_pos`. -/
def sub_pos (p q : Pos) : Pos := ⟨p.x - q.x, p.y - q.y⟩

/-- utils.rs `move_x`. -/
def move_x (p : Pos) (ox : Int) : Pos := ⟨p.x + ox, p.y⟩

/-- utils.rs `move_y`. -/
def move_y (p : Pos) (oy : Int) : Pos := ⟨p.x, p.y + oy⟩

/-- movement.rs `enum Direction`. -/
inductive Direction where
  | Left
  | Right
  | Up
  | Down
  | DownLeft
  | DownRight
  | UpLeft
  | UpRight
  | Center
deriving DecidableEq

/-- movement.rs `Direction::from_dxy`, transcribed clause for clause
(including its swapped handling of the `(positive, 0)` and
`(negative, 0)` cases, which map to `Left` and `Right` respectively). -/
def Direction.from_dxy (dx dy : Int) : Direction :=
  if dx = 0 ∧ dy = 0 then Direction.Center
  else if dx = 0 ∧ dy < 0 then Direction.Up
  else if dx = 0 ∧ dy > 0 then Direction.Down
  else if dx > 0 ∧ dy = 0 then Direction.Left
  else if dx < 0 ∧ dy = 0 then Direction.Right
  else if dx > 0 ∧ dy > 0 then Direction.DownRight
  else if dx > 0 ∧ dy < 0 then Direction.UpRight
  else if dx < 0 ∧ dy > 0 then Direction.DownLeft
  else Direction.UpLeft

/-- x-dominant Bresenham steps of the tcod line: `k` steps remain, `e` is
the error accumulator, `p` the last emitted point.  Deltas are already
doubled in the error updates, matching `TCOD_line_step`. -/
def lineX (sx sy ax ay : Int) : Nat → Int → Pos → List Pos
  | 0, _, _ => []
  | k+1, e, p =>
    let e2 := e - 2*ay
    if e2 < 0 then
      let q : Pos := ⟨p.x + sx, p.y + sy⟩
      q :: lineX sx sy ax ay k (e2 + 2*ax) q
    else
      let q : Pos := ⟨p.x + sx, p.y⟩
      q :: lineX sx sy ax ay k e2 q

/-- y-dominant Bresenham steps of the tcod line. -/
def lineY (sx sy ax ay : Int) : Nat → Int → Pos → List Pos
  | 0, _, _ => []
  | k+1, e, p =>
    let e2 := e - 2*ax
    if e2 < 0 then
      let q : Pos := ⟨p.x + sx, p.y + sy⟩
      q :: lineY sx sy ax ay k (e2 + 2*ay) q
    else
      let q : Pos := ⟨p.x, p.y + sy⟩
      q :: lineY sx sy ax ay k e2 q

/-- The tcod `Line` iterator from `a` to `b`: all raster points after `a`
up to and including `b` (empty when `a = b`). -/
def line (a b : Pos) : List Pos :=
  let dx := b.x - a.x
  let dy := b.y - a.y
  let sx : Int := if dx > 0 then 1 else if dx < 0 then -1 else 0
  let sy : Int := if dy > 0 then 1 else if dy < 0 then -1 else 0
  let ax : Int := dx.natAbs
  let ay : Int := dy.natAbs
  if ax > ay then lineX sx sy ax ay dx.natAbs ax a
  else lineY sx sy ax ay dy.natAbs ay a

/-- utils.rs `distance`: the number of points of the tcod line from
`pos1` to `pos2` (as an `i32`). -/
def distance (a b : Pos) : Int := ((line a b).length : Int)

theorem lineX_length (sx sy ax ay : Int) :
    ∀ (k : Nat) (e : Int) (p : Pos), (lineX sx sy ax ay k e p).length = k := by
  intro k
  induction k with
  | zero => intro e p; rfl
  | succ n ih =>
    intro e p
    simp only [lineX]
    split <;> simp [ih]

theorem lineY_length (sx sy ax ay : Int) :
    ∀ (k : Nat) (e : Int) (p : Pos), (lineY sx sy ax ay k e p).length = k := by
  intro k
  induction k with
  | zero => intro e p; rfl
  | succ n ih =>
    intro e p
    simp only [lineY]
    split <;> simp [ih]

/-- The rasterized-line distance is the Chebyshev distance. -/
theorem distance_eq (a b : Pos) :
    distance a b = (max (b.x - a.x).natAbs (b.y - a.y).natAbs : Nat) := by
  have h : distance a b = (((if ((b.x - a.x).natAbs : Int) > ((b.y - a.y).natAbs : Int) then
      lineX (if b.x - a.x > 0 then 1 else if b.x - a.x < 0 then -1 else 0)
            (if b.y - a.y > 0 then 1 else if b.y - a.y < 0 then -1 else 0)
            ((b.x - a.x).natAbs) ((b.y - a.y).natAbs) (b.x - a.x).natAbs ((b.x - a.x).natAbs) a
      else
      lineY (if b.x - a.x > 0 then 1 else if b.x - a.x < 0 then -1 else 0)
            (if b.y - a.y > 0 then 1 else if b.y - a.y < 0 then -1 else 0)
            ((b.x - a.x).natAbs) ((b.y - a.y).natAbs) (b.y - a.y).natAbs ((b.y - a.y).natAbs) a).length
      : Nat) : Int) := rfl
  rw [h]
  split
  · rw [lineX_length]; omega
  · rw [lineY_length]; omega

theorem distance_self (a : Pos) : distance a a = 0 := by
  rw [distance_eq]; simp

theorem distance_eq_zero_iff (a b : Pos) : distance a b = 0 ↔ a = b := by
  rw [distance_eq]
  constructor
  · intro h
    have hb : a.x = b.x ∧ a.y = b.y := by omega
    cases a; cases b; simp_all
  · intro h; subst h; simp

/-- map.rs `struct Blocked`. -/
structure Blocked where
  start_pos : Pos
  end_pos : Pos
  direction : Direction
  blocked_tile : Bool
  wall_type : Wall
deriving DecidableEq

/-- map.rs `struct Map` (the tile grid; the doryen-fov visibility buffer
and its cached position/radius only feed `is_in_fov_alg`, which no claim
concerns, so they are not carried here). -/
structure Map where
  tiles : List (List Tile)
deriving DecidableEq

namespace Map

/-- map.rs `Map::width`. -/
def width (m : Map) : Int := m.tiles.length

/-- map.rs `Map::height` (tiles[0].len(); `headD` stands in for the
`tiles[0]` read, which only differs on an empty tile vector). -/
def height (m : Map) : Int := (m.tiles.headD []).length

/-- map.rs `Map::is_within_bounds`. -/
def is_within_bounds (m : Map) (p : Pos) : Bool :=
  (0 ≤ p.x ∧ p.x < m.width) ∧ (0 ≤ p.y ∧ p.y < m.height)

/-- The raw Rust read `self.tiles[p.x as usize][p.y as usize]`: `none`
exactly when the indexing would be outside the arrays (a Rust panic;
a negative coordinate cast to `usize` is far out of range). -/
def tileOpt (m : Map) (p : Pos) : Option Tile :=
  if 0 ≤ p.x ∧ 0 ≤ p.y then
    (m.tiles.get? p.x.toNat).bind (fun col => col.get? p.y.toNat)
  else none

/-- Total tile read: the raw read, defaulting to `Tile.empty` out of the
arrays.  Used where the source either guards the read with
`is_within_bounds` (so the default is never taken) or would panic. -/
def tileD (m : Map) (p : Pos) : Tile := (m.tileOpt p).getD Tile.empty

/-- map.rs `Map::from_dims`. -/
def from_dims (w h : Nat) : Map :=
  ⟨List.replicate w (List.replicate h Tile.empty)⟩

/-- map.rs `Map::blocked_left` (this one checks both `offset` and `pos`
before reading, so it cannot index out of the arrays). -/
def blocked_left (m : Map) (pos : Pos) : Bool :=
  let offset : Pos := ⟨pos.x - 1, pos.y⟩
  if ¬ (m.is_within_bounds offset ∧ m.is_within_bounds pos) then true
  else ((m.tileD pos).left_wall ≠ Wall.Empty) ∨ (m.tileD offset).blocked

/-- map.rs `Map::blocked_right`, run faithfully: the source's bounds
guard tests `pos` twice and never tests `offset = (x+1, y)`, yet then
reads `self[offset]`; `none` models the out-of-array read (panic) that
happens when `pos` is in bounds on the right edge. -/
def blocked_right_run (m : Map) (pos : Pos) : Option Bool :=
  let offset : Pos := ⟨pos.x + 1, pos.y⟩
  if ¬ (m.is_within_bounds pos ∧ m.is_within_bounds pos) then some true
  else match m.tileOpt offset with
    | some t => some ((t.left_wall ≠ Wall.Empty) ∨ t.blocked)
    | none => none

/-- Total `blocked_right` used by the rest of the embedding; the default
is irrelevant in every calling context of the source (there the offset
is provably inside the arrays). -/
def blocked_right (m : Map) (pos : Pos) : Bool :=
  (m.blocked_right_run pos).getD true

/-- map.rs `Map::blocked_down`, run faithfully (same missing `offset`
bounds test as `blocked_right`; `offset = (x, y+1)`). -/
def blocked_down_run (m : Map) (pos : Pos) : Option Bool :=
  let offset : Pos := ⟨pos.x, pos.y + 1⟩
  if ¬ (m.is_within_bounds pos ∧ m.is_within_bounds pos) then some true
  else match m.tileOpt offset with
    | some t => some ((m.tileD pos).bottom_wall ≠ Wall.Empty ∨ t.blocked)
    | none => none

/-- Total `blocked_down`. -/
def blocked_down (m : Map) (pos : Pos) : Bool :=
  (m.blocked_down_run pos).getD true

/-- map.rs `Map::blocked_up`, run faithfully (same missing `offset`
bounds test; `offset = (x, y-1)`, both the wall and the tile are read
from `offset`). -/
def blocked_up_run (m : Map) (pos : Pos) : Option Bool :=
  let offset : Pos := ⟨pos.x, pos.y - 1⟩
  if ¬ (m.is_within_bounds pos ∧ m.is_within_bounds pos) then some true
  else match m.tileOpt offset with
    | some t => some ((t.bottom_wall ≠ Wall.Empty) ∨ t.blocked)
    | none => none

/-- Total `blocked_up`. -/
def blocked_up (m : Map) (pos : Pos) : Bool :=
  (m.blocked_up_run pos).getD true

/-- `impl IndexMut for Map`: write one tile (used to build the concrete
maps of the tests). -/
def setTile (m : Map) (p : Pos) (t : Tile) : Map :=
  ⟨m.tiles.set p.x.toNat ((m.tiles.getD p.x.toNat []).set p.y.toNat t)⟩

/-- map.rs `Map::move_blocked_by_wall`.  Precondition (the Rust
`assert!(distance(pos, next_pos) == 1)`): the two cells are 8-adjacent;
the claims' theorems carry that hypothesis.  The mutable pair
`(found_blocker, blocked.wall_type)` of the source is threaded as the
state `st`; each diagonal sub-check overwrites it in source order.  The
unguarded `self[...]` reads of the source are `tileD` reads here; they
coincide with the source whenever `pos` is inside the grid (for an
out-of-grid `pos` some diagonal cases of the source index out of the
tile arrays). -/
def move_blocked_by_wall (m : Map) (pos next_pos : Pos) : Option Blocked :=
  let x := pos.x
  let y := pos.y
  let dxy := sub_pos next_pos pos
  let dir := Direction.from_dxy dxy.x dxy.y
  let b0 : Blocked := ⟨pos, next_pos, dir, false, Wall.Empty⟩
  if ¬ m.is_within_bounds next_pos then
    some { b0 with blocked_tile := true }
  else
    let tile_blocked := (m.tileD next_pos).blocked
    let x_moved : Pos := ⟨next_pos.x, y⟩
    let y_moved : Pos := ⟨x, next_pos.y⟩
    let st0 : Bool × Wall := (tile_blocked, Wall.Empty)
    let st :=
      match dir with
      | Direction.Right | Direction.Left =>
        let left_wall_pos := if dxy.x ≥ 1 then (⟨x + dxy.x, y⟩ : Pos) else pos
        if m.is_within_bounds left_wall_pos ∧
            (m.tileD left_wall_pos).left_wall ≠ Wall.Empty then
          (true, (m.tileD left_wall_pos).left_wall)
        else st0
      | Direction.Up | Direction.Down =>
        let bottom_wall_pos := if dxy.y ≥ 1 then pos else (⟨x, y + dxy.y⟩ : Pos)
        if m.is_within_bounds bottom_wall_pos ∧
            (m.tileD bottom_wall_pos).bottom_wall ≠ Wall.Empty then
          (true, (m.tileD bottom_wall_pos).bottom_wall)
        else st0
      | Direction.DownRight =>
        let st1 := if m.blocked_right pos ∧ m.blocked_down pos then
            (true, (m.tileD pos).bottom_wall) else st0
        let st2 := if m.blocked_right (move_y pos (-1)) ∧ m.blocked_down (move_x pos 1) then
            (true, if m.is_within_bounds (add_pos pos ⟨-1, 1⟩) then
                (m.tileD (add_pos pos ⟨-1, 1⟩)).bottom_wall else st1.2)
          else st1
        let st3 := if m.blocked_right pos ∧ m.blocked_right y_moved then
            (true, (m.tileD (move_x pos 1)).left_wall) else st2
        if m.blocked_down pos ∧ m.blocked_down x_moved then
          (true, (m.tileD pos).bottom_wall) else st3
      | Direction.UpRight =>
        let st1 := if m.blocked_up pos ∧ m.blocked_right pos then
            (true, (m.tileD (move_y pos (-1))).bottom_wall) else st0
        let st2 := if m.blocked_up (move_x pos 1) ∧ m.blocked_right (move_y pos (-1)) then
            (true, if m.is_within_bounds (add_pos pos ⟨1, -1⟩) then
                (m.tileD (add_pos pos ⟨1, -1⟩)).bottom_wall else st1.2)
          else st1
        let st3 := if m.blocked_right pos ∧ m.blocked_right y_moved then
            (true, (m.tileD (move_x pos 1)).left_wall) else st2
        if m.blocked_up pos ∧ m.blocked_up x_moved then
          (true, (m.tileD (move_y pos (-1))).bottom_wall) else st3
      | Direction.DownLeft =>
        let st1 := if m.blocked_left pos ∧ m.blocked_down pos then
            (true, (m.tileD pos).left_wall) else st0
        let st2 := if m.blocked_left (move_y pos 1) ∧ m.blocked_down (move_x pos (-1)) then
            (true, if m.is_within_bounds (add_pos pos ⟨1, -1⟩) then
                (m.tileD (add_pos pos ⟨1, -1⟩)).left_wall else st1.2)
          else st1
        let st3 := if m.blocked_left pos ∧ m.blocked_left y_moved then
            (true, (m.tileD pos).left_wall) else st2
        if m.blocked_down pos ∧ m.blocked_down x_moved then
          (true, (m.tileD pos).bottom_wall) else st3
      | Direction.UpLeft =>
        let st1 := if m.blocked_left (move_y pos (-1)) ∧ m.blocked_up (move_x pos (-1)) then
            (true, if m.is_within_bounds (add_pos pos ⟨-1, -1⟩) then
                (m.tileD (add_pos pos ⟨-1, -1⟩)).left_wall else st0.2)
          else st0
        let st2 := if m.blocked_left pos ∧ m.blocked_up pos then
            (true, (m.tileD pos).left_wall) else st1
        let st3 := if m.blocked_left pos ∧ m.blocked_left y_moved then
            (true, (m.tileD pos).left_wall) else st2
        if m.blocked_up pos ∧ m.blocked_up x_moved then
          (true, if m.is_within_bounds (move_y pos (-1)) then
              (m.tileD (move_y pos (-1))).bottom_wall else st3.2)
        else st3
      | Direction.Center =>
        -- unreachable under the adjacency precondition (the Rust match
        -- has no such arm because from_dxy cannot yield it there)
        st0
    if st.1 then some { b0 with blocked_tile := tile_blocked, wall_type := st.2 }
    else none

/-- map.rs `Map::path_blocked_by_wall`: first obstruction over the
consecutive pairs of the path (the source's `positions.tuple_windows()`,
where `positions` is a slip for the `path` parameter). -/
def path_blocked_by_wall (m : Map) : List Pos → Option Blocked
  | p :: q :: rest =>
    match m.move_blocked_by_wall p q with
    | some b => some b
    | none => m.path_blocked_by_wall (q :: rest)
  | _ => none

/-- map.rs `Map::is_blocked_by_wall`: rasterize and check pairwise. -/
def is_blocked_by_wall (m : Map) (start_pos : Pos) (dx dy : Int) : Option Blocked :=
  if dx = 0 ∧ dy = 0 then none
  else
    let e : Pos := ⟨start_pos.x + dx, start_pos.y + dy⟩
    m.path_blocked_by_wall (start_pos :: line start_pos e)

/-- map.rs `Map::reachable_neighbors` (SmallVec as a list, same delta
order). -/
def reachable_neighbors (m : Map) (pos : Pos) : List Pos :=
  [((1:Int), (0:Int)), (1, 1), (0, 1), (-1, 1), (-1, 0), (-1, -1), (0, -1), (1, -1)].filterMap
    (fun d => if m.is_blocked_by_wall pos d.1 d.2 = none
              then some (add_pos pos ⟨d.1, d.2⟩) else none)

end Map

/-- map.rs `astar_neighbors`. -/
def astar_neighbors (m : Map) (start pos : Pos) (max_dist : Option Int) :
    List (Pos × Int) :=
  match max_dist with
  | some md => if distance start pos > md then [] else
      (m.reachable_neighbors pos).map (fun p => (p, 1))
  | none => (m.reachable_neighbors pos).map (fun p => (p, 1))

/-- Sanity replay of the source's `test_blocked_by_wall_right`. -/
example :
    let m := (Map.from_dims 10 10).setTile ⟨5, 5⟩
      { Tile.empty with left_wall := Wall.ShortWall }
    (m.is_blocked_by_wall ⟨4, 5⟩ 1 0).map Blocked.wall_type = some Wall.ShortWall ∧
    m.is_blocked_by_wall ⟨5, 5⟩ 1 0 = none ∧
    m.is_blocked_by_wall ⟨3, 5⟩ 1 0 = none := by decide

/-- Sanity replay of the source's `test_blocked_by_wall_up` and
`test_blocked_by_wall_down`. -/
example :
    let m := (Map.from_dims 10 10).setTile ⟨5, 5⟩
      { Tile.empty with bottom_wall := Wall.ShortWall }
    (m.is_blocked_by_wall ⟨5, 6⟩ 0 (-1)).map Blocked.wall_type = some Wall.ShortWall ∧
    m.is_blocked_by_wall ⟨5, 5⟩ 0 (-1) = none ∧
    m.is_blocked_by_wall ⟨5, 4⟩ 0 (-1) = none ∧
    (m.is_blocked_by_wall ⟨5, 5⟩ 0 1).map Blocked.wall_type = some Wall.ShortWall ∧
    m.is_blocked_by_wall ⟨5, 6⟩ 0 1 = none ∧
    m.is_blocked_by_wall ⟨5, 7⟩ 0 1 = none := by decide

/-- Sanity replay of the source's `test_blocked_by_wall_left`. -/
example :
    let m := (Map.from_dims 10 10).setTile ⟨5, 5⟩
      { Tile.empty with left_wall := Wall.ShortWall }
    (m.is_blocked_by_wall ⟨5, 5⟩ (-1) 0).map Blocked.wall_type = some Wall.ShortWall ∧
    m.is_blocked_by_wall ⟨4, 5⟩ (-1) 0 = none ∧
    m.is_blocked_by_wall ⟨6, 5⟩ (-1) 0 = none := by decide

/-- map.rs `enum AoeEffect`. -/
inductive AoeEffect where
  | Sound
deriving DecidableEq

/-- map.rs `struct Aoe`. -/
structure Aoe where
  effect : AoeEffect
  positions : List (List Pos)
deriving DecidableEq

/-- map.rs `Aoe::positions` (flatten the rings). -/
def Aoe.allPositions (a : Aoe) : List Pos := a.positions.flatten

/-- The three `Vec<Pos>` locals of map.rs `Map::floodfill`. -/
structure FState where
  seen : List Pos
  current : List Pos
  flood : List Pos
deriving DecidableEq

/-- Push of one new position inside the floodfill loop: only when not
seen; all three vectors receive it. -/
def floodPush (st : FState) (p : Pos) : FState :=
  if p ∈ st.seen then st
  else ⟨st.seen ++ [p], st.current ++ [p], st.flood ++ [p]⟩

/-- Expansion of one frontier cell: its astar neighbors are pushed. -/
def floodExpand (m : Map) (start : Pos) (radius : Nat) (st : FState) (pos : Pos) :
    FState :=
  (astar_neighbors m start pos (some (radius : Int))).foldl
    (fun st nc => floodPush st nc.1) st

/-- One iteration of the floodfill `for _index in 0..radius` loop: the
frontier is drained and every cell of it is expanded. -/
def floodIter (m : Map) (start : Pos) (radius : Nat) (st : FState) : FState :=
  let last := st.current
  last.foldl (floodExpand m start radius) { st with current := [] }

/-- The whole floodfill loop, `k` iterations. -/
def floodLoop (m : Map) (start : Pos) (radius : Nat) : Nat → FState → FState
  | 0, st => st
  | k+1, st => floodLoop m start radius k (floodIter m start radius st)

/-- map.rs `Map::floodfill`. -/
def Map.floodfill (m : Map) (start : Pos) (radius : Nat) : List Pos :=
  (floodLoop m start radius radius ⟨[start], [start], [start]⟩).flood

/-- Loop body of map.rs `Map::aoe_fill`: bucket one flood cell unless
the double-blocked dampening rule drops it.  The
`aoe_dists[dist as usize]` write is a `List.set` here; `set` out of
range is a no-op where the Rust write would be an out-of-range panic
(shown unreachable in the C7 proof via the flood distance bound). -/
def aoeStep (m : Map) (start : Pos) (blocked_radius : Int)
    (acc : List (List Pos)) (p : Pos) : List (List Pos) :=
  let dist := distance start p
  let dt_to := sub_pos p start
  let is_blocked_to := (m.is_blocked_by_wall start dt_to.x dt_to.y).isSome
  let dt_from := sub_pos start p
  let is_blocked_from := (m.is_blocked_by_wall p dt_from.x dt_from.y).isSome
  let is_blocked := is_blocked_to && is_blocked_from
  if !is_blocked || (is_blocked && dist ≤ blocked_radius) then
    acc.set dist.toNat ((acc.getD dist.toNat []) ++ [p])
  else acc

/-- map.rs `Map::aoe_fill`. -/
def Map.aoe_fill (m : Map) (aoe_effect : AoeEffect) (start : Pos) (radius : Nat) :
    Aoe :=
  let flood := m.floodfill start radius
  let blocked_radius : Int := if radius > 2 then (radius : Int) - 2 else 0
  let aoe_dists := flood.foldl (aoeStep m start blocked_radius)
    (List.replicate (radius + 1) ([] : List Pos))
  ⟨aoe_effect, aoe_dists⟩

/-- Heuristic argument that map.rs `astar_path` passes to the
`pathfinding` crate's `astar`. -/
def astar_h (m : Map) (start goal : Pos) (cost_fn : Option (Pos → Pos → Map → Int))
    (pos : Pos) : Int :=
  match cost_fn with
  | some f => f start pos m
  | none => distance pos goal

/-- Extraction of a minimum-key element from the open list (the
priority queue of the `pathfinding` crate's `astar`). -/
def extractMin (f : Pos × List Pos × Int → Int) :
    List (Pos × List Pos × Int) →
    Option ((Pos × List Pos × Int) × List (Pos × List Pos × Int))
  | [] => none
  | e :: rest =>
    match extractMin f rest with
    | none => some (e, [])
    | some (e2, rest2) =>
      if f e ≤ f e2 then some (e, rest) else some (e2, e :: rest2)

/-- Best-first search loop of the `pathfinding` crate's `astar` (an
external dependency of map.rs `astar_path`), with each open-list entry
carrying (node, path from start to the node, accumulated cost).  The
fuel only bounds the number of loop iterations; it is chosen large
enough in `astar_path` and only search completeness (which no claim
asserts) could depend on it. -/
def astar_loop (m : Map) (start goal : Pos) (max_dist : Option Int)
    (cost_fn : Option (Pos → Pos → Map → Int)) :
    Nat → List (Pos × List Pos × Int) → List Pos → List Pos
  | 0, _, _ => []
  | fuel+1, frontier, visited =>
    match extractMin (fun ent => ent.2.2 + astar_h m start goal cost_fn ent.1) frontier with
    | none => []
    | some (ent, rest) =>
      if ent.1 = goal then ent.2.1
      else if ent.1 ∈ visited then
        astar_loop m start goal max_dist cost_fn fuel rest visited
      else
        astar_loop m start goal max_dist cost_fn fuel
          (rest ++ (astar_neighbors m start ent.1 max_dist).map
            (fun nc => (nc.1, ent.2.1 ++ [nc.1], ent.2.2 + nc.2)))
          (ent.1 :: visited)

/-- map.rs `astar_path`: Some path → the node list, None → empty vec. -/
def astar_path (m : Map) (start goal : Pos) (max_dist : Option Int)
    (cost_fn : Option (Pos → Pos → Map → Int)) : List Pos :=
  astar_loop m start goal max_dist cost_fn
    (9 * (m.width.toNat * m.height.toNat + 2)) [(start, [start], 0)] []

/-- Modelled from the spec: the body of the local `fov_line` helper of
map.rs `Map::is_in_fov_lines` does not name a coherent computation (it
returns booleans from a `Pos` function and uses an undeclared
`effective_distance`), so the walk is taken from spec section 4.3: walk
the rasterized line toward `dest` accumulating effective distance; a
ShortWall obstruction while not crouching is passed at a penalty of the
real distance skipped plus a flat 1, any other obstruction terminates
the walk; the target is reached only with accumulated effective
distance within `max_dist`.  Returns the last position reached.  Each
hop strictly approaches `dest`, so the fuel of `fov_line` suffices. -/
def fov_line_walk (m : Map) (dest : Pos) (max_dist : Int) (crouching : Bool) :
    Nat → Pos → Int → Pos
  | 0, cur, _ => cur
  | fuel+1, cur, eff =>
    if cur = dest then cur
    else
      match m.is_blocked_by_wall cur (dest.x - cur.x) (dest.y - cur.y) with
      | some b =>
        if crouching = false ∧ b.wall_type = Wall.ShortWall then
          let eff2 := eff + distance cur b.end_pos + 1
          if max_dist < eff2 then cur
          else fov_line_walk m dest max_dist crouching fuel b.end_pos eff2
        else cur
      | none => if eff + distance cur dest ≤ max_dist then dest else cur

/-- The `fov_line(map, start, end, max_dist, crouching)` helper: last
position within FOV on the walk from `start` toward `dest`. -/
def fov_line (m : Map) (start dest : Pos) (max_dist : Int) (crouching : Bool) : Pos :=
  fov_line_walk m dest max_dist crouching ((distance start dest).toNat + 1) start 0

/-- map.rs local `needs_culling`, generic in the recursive visibility
query it performs (`map.is_in_fov_lines` in the source).  The zip
compares the sub-line with `fov_line.iter().skip(len - 1)` — only the
final point of the direct line — exactly as the source writes it. -/
def needs_culling_gen (vis : Pos → Pos → Bool) (start_pos end_pos : Pos) : Bool :=
  let fov_line := line start_pos end_pos
  let len := fov_line.length
  if 3 ≤ len then
    match (fov_line.drop (len - 2)).head? with
    | some next_to_last =>
      let next_to_line := line start_pos next_to_last
      if (next_to_line.zip (fov_line.drop (len - 1))).any
          (fun pr => decide (pr.1 ≠ pr.2)) then
        ¬ vis start_pos next_to_last
      else false
    | none => false
  else false

/-- map.rs `Map::is_in_fov_lines`, fueled: the fuel feeds the mutual
recursion through `needs_culling`, whose sub-query
`map.is_in_fov_lines(start, next_to_last, radius)` runs at one fuel
less.  Every recursion is to a strictly shorter line, so the
`distance + 1` fuel of `Map.is_in_fov_lines` reproduces the source's
unbounded recursion. -/
def is_in_fov_f (m : Map) (radius : Int) : Nat → Pos → Pos → Bool
  | 0, s, e => s = e
  | fuel+1, s, e =>
    if s = e then true
    else if ¬ (m.is_within_bounds s ∧ m.is_within_bounds e) then false
    else if ¬ (distance s e < radius) then false
    else
      let fov_end_pos := fov_line m s e radius false
      let visible_back : Bool := fov_line m e s radius false = s
      let base : Bool :=
        if fov_end_pos = e then true
        else visible_back || (decide (distance fov_end_pos e = 1)
            && (m.tileD e).block_sight)
      if base then
        ¬ (needs_culling_gen (fun a b => is_in_fov_f m radius fuel a b) s e
           ∨ needs_culling_gen (fun a b => is_in_fov_f m radius fuel a b) e s)
      else false

/-- The fuel-matched `needs_culling` as executed inside the top-level
`Map.is_in_fov_lines` call. -/
def needs_culling_at (m : Map) (radius : Int) (fuel : Nat) (s e : Pos) : Bool :=
  needs_culling_gen (fun a b => is_in_fov_f m radius fuel a b) s e

/-- map.rs `Map::is_in_fov_lines`. -/
def Map.is_in_fov_lines (m : Map) (s e : Pos) (radius : Int) : Bool :=
  is_in_fov_f m radius ((distance s e).toNat + 1) s e

/-- map.rs `Map::is_in_fov` (delegates to the lines algorithm). -/
def Map.is_in_fov (m : Map) (s e : Pos) (radius : Int) : Bool :=
  m.is_in_fov_lines s e radius

/-- Sanity replay of the source's `test_blocked_by_wall` (water tile). -/
example :
    let m := (Map.from_dims 10 10).setTile ⟨5, 5⟩ Tile.water
    (m.is_blocked_by_wall ⟨4, 5⟩ 1 0).isSome ∧
    (m.is_blocked_by_wall ⟨4, 5⟩ 3 0).isSome ∧
    (m.is_blocked_by_wall ⟨3, 5⟩ 3 0).isSome ∧
    (m.is_blocked_by_wall ⟨6, 5⟩ (-1) 0).isSome ∧
    (m.is_blocked_by_wall ⟨5, 6⟩ 0 (-1)).isSome ∧
    (m.is_blocked_by_wall ⟨5, 4⟩ 0 1).isSome := by decide

/-- Sanity replay of the first half of the source's `test_floodfill`. -/
example :
    let m := Map.from_dims 10 10
    let start : Pos := ⟨5, 5⟩
    m.floodfill start 0 = [start] ∧
    (m.floodfill start 1).length = 9 := by decide

/-- Sanity replay of the walled part of `test_floodfill` (three left
walls cut the radius-1 flood from 9 cells to 6). -/
example :
    let m := (((Map.from_dims 10 10).setTile ⟨5, 5⟩
        { Tile.empty with left_wall := Wall.ShortWall }).setTile ⟨5, 6⟩
        { Tile.empty with left_wall := Wall.ShortWall }).setTile ⟨5, 4⟩
        { Tile.empty with left_wall := Wall.ShortWall }
    (m.floodfill ⟨5, 5⟩ 1).length = 6 := by decide

/-! ## Claim C10: the zero-delta guard of `is_blocked_by_wall` -/

/-- C10: for every map and position, `is_blocked_by_wall(pos, 0, 0)`
returns `None` — the zero-delta guard answers before any direction is
derived or any tile is read (in the definition the guard is the first
branch, before `line`, `Direction.from_dxy` and all grid reads). -/
theorem is_blocked_by_wall_zero_delta (m : Map) (pos : Pos) :
    m.is_blocked_by_wall pos 0 0 = none := by
  simp [Map.is_blocked_by_wall]

/-! ## Claim C9: out-of-range directional edge queries -/

/-- C9 (code bug): the bounds guards of `blocked_right`, `blocked_down`
and `blocked_up` test `pos` twice and never test the offset cell they
then read, so a query at the far edge of a 10×10 grid indexes outside
the tile arrays (`none` here is the out-of-array read, a Rust panic)
instead of answering the conservative `true` the spec promises.
`blocked_left`, which does guard its offset, answers `true` at the
mirror-image edge. -/
theorem blocked_queries_index_out_of_array :
    (Map.from_dims 10 10).blocked_right_run ⟨9, 5⟩ = none ∧
    (Map.from_dims 10 10).blocked_down_run ⟨5, 9⟩ = none ∧
    (Map.from_dims 10 10).blocked_up_run ⟨5, 0⟩ = none ∧
    (Map.from_dims 10 10).blocked_left ⟨0, 5⟩ = true := by decide

/-! ## Claim C3: the leading guards of `is_in_fov` -/

/-- C3 counterexample: the claim demands `is_in_fov(p, q, r) = false`
whenever distance ≥ r and whenever a cell is out of bounds, but the
observer-equals-target test runs first: `is_in_fov(p, p, 0)` is `true`
with distance 0 ≥ 0, and `is_in_fov` of an out-of-bounds cell with
itself is also `true`. -/
theorem is_in_fov_guard_order_counterexample :
    (distance ⟨0, 0⟩ ⟨0, 0⟩ ≥ (0 : Int) ∧
      (Map.from_dims 2 2).is_in_fov ⟨0, 0⟩ ⟨0, 0⟩ 0 = true) ∧
    ((Map.from_dims 2 2).is_within_bounds ⟨5, 5⟩ = false ∧
      (Map.from_dims 2 2).is_in_fov ⟨5, 5⟩ ⟨5, 5⟩ 3 = true) := by decide

/-- Helper: for distinct cells the radius guard forces `false`. -/
theorem fov_far_helper (m : Map) (p q : Pos) (r : Int)
    (hne : p ≠ q) (hge : distance p q ≥ r) : m.is_in_fov p q r = false := by
  simp only [Map.is_in_fov, Map.is_in_fov_lines, is_in_fov_f]
  rw [if_neg hne]
  by_cases h1 : m.is_within_bounds p = true ∧ m.is_within_bounds q = true
  · rw [if_neg (not_not_intro h1), if_pos (by omega : ¬ distance p q < r)]
  · rw [if_pos h1]

/-- C3 as amended: `is_in_fov(p, p, r)` is `true` for every radius, and
for distinct cells `is_in_fov` is `false` whenever the rasterized-line
distance is ≥ r and whenever either cell is out of the grid bounds (the
equality test precedes the bounds and radius guards, so those two
clauses hold only for `p ≠ q`). -/
theorem is_in_fov_guards (m : Map) (p q : Pos) (r : Int) :
    (p = q → m.is_in_fov p q r = true) ∧
    (p ≠ q → distance p q ≥ r → m.is_in_fov p q r = false) ∧
    (p ≠ q → (¬ m.is_within_bounds p ∨ ¬ m.is_within_bounds q) →
      m.is_in_fov p q r = false) := by
  refine ⟨?_, fov_far_helper m p q r, ?_⟩
  · intro h
    subst h
    simp [Map.is_in_fov, Map.is_in_fov_lines, is_in_fov_f]
  · intro hne hob
    simp only [Map.is_in_fov, Map.is_in_fov_lines, is_in_fov_f]
    rw [if_neg hne]
    rw [if_pos ?_]
    intro h1
    rcases hob with h | h
    · exact h h1.1
    · exact h h1.2

/-- C3 witness: the amended theorem applied at concrete inputs (a 4×4
grid): the diagonal guard at distance 3 ≥ radius 3, and an
out-of-bounds target. -/
theorem is_in_fov_guards_witness :
    ((Map.from_dims 4 4).is_in_fov ⟨0, 0⟩ ⟨0, 0⟩ (-1) = true) ∧
    ((Map.from_dims 4 4).is_in_fov ⟨0, 0⟩ ⟨3, 3⟩ 3 = false) ∧
    ((Map.from_dims 4 4).is_in_fov ⟨0, 0⟩ ⟨4, 0⟩ 9 = false) :=
  ⟨(is_in_fov_guards (Map.from_dims 4 4) ⟨0, 0⟩ ⟨0, 0⟩ (-1)).1 rfl,
   (is_in_fov_guards (Map.from_dims 4 4) ⟨0, 0⟩ ⟨3, 3⟩ 3).2.1
     (by decide) (by decide),
   (is_in_fov_guards (Map.from_dims 4 4) ⟨0, 0⟩ ⟨4, 0⟩ 9).2.2
     (by decide) (by decide)⟩

/-! ## Claim C1: `move_blocked_by_wall` is `None` iff nothing separates -/

/-- Spec-side separation predicate, following the words of spec
sections 4.2 and 8 (the second definition of the refinement claim C1):
tile occupancy at `b`, or an edge wall between `a` and `b` — for an
axis step the single owned edge (bottom wall of the lower cell for
vertical, left wall of the rightward cell for horizontal; a cell
outside the grid owns no wall), for a diagonal step the corner rule:
near corner, far (squeeze) corner, and the two same-row/same-column
squeeze pairs, each built from the directional blocked queries. -/
def spec_separates (m : Map) (a b : Pos) : Bool :=
  let dx := b.x - a.x
  let dy := b.y - a.y
  let x_moved : Pos := ⟨b.x, a.y⟩
  let y_moved : Pos := ⟨a.x, b.y⟩
  (m.tileD b).blocked ||
  (if dx ≠ 0 ∧ dy = 0 then
    let rightward : Pos := if 0 < dx then b else a
    decide (m.is_within_bounds rightward = true ∧
      (m.tileD rightward).left_wall ≠ Wall.Empty)
  else if dx = 0 ∧ dy ≠ 0 then
    let lower : Pos := if 0 < dy then a else b
    decide (m.is_within_bounds lower = true ∧
      (m.tileD lower).bottom_wall ≠ Wall.Empty)
  else if 0 < dx ∧ 0 < dy then
    (m.blocked_right a && m.blocked_down a) ||
    (m.blocked_right (move_y a (-1)) && m.blocked_down (move_x a 1)) ||
    (m.blocked_right a && m.blocked_right y_moved) ||
    (m.blocked_down a && m.blocked_down x_moved)
  else if 0 < dx ∧ dy < 0 then
    (m.blocked_up a && m.blocked_right a) ||
    (m.blocked_up (move_x a 1) && m.blocked_right (move_y a (-1))) ||
    (m.blocked_right a && m.blocked_right y_moved) ||
    (m.blocked_up a && m.blocked_up x_moved)
  else if dx < 0 ∧ 0 < dy then
    (m.blocked_left a && m.blocked_down a) ||
    (m.blocked_left (move_y a 1) && m.blocked_down (move_x a (-1))) ||
    (m.blocked_left a && m.blocked_left y_moved) ||
    (m.blocked_down a && m.blocked_down x_moved)
  else if dx < 0 ∧ dy < 0 then
    (m.blocked_left (move_y a (-1)) && m.blocked_up (move_x a (-1))) ||
    (m.blocked_left a && m.blocked_up a) ||
    (m.blocked_left a && m.blocked_left y_moved) ||
    (m.blocked_up a && m.blocked_up x_moved)
  else false)

/-- Helper for C1, horizontal-right step. -/
theorem mbw_none_hr (m : Map) (a b : Pos) (hx : b.x - a.x = 1) (hy : b.y - a.y = 0) :
    m.move_blocked_by_wall a b = none ↔
      (m.is_within_bounds b = true ∧ spec_separates m a b = false) := by
  have hbx : b = ⟨a.x + 1, a.y⟩ := by cases a; cases b; simp_all; omega
  subst hbx
  simp only [Map.move_blocked_by_wall, spec_separates, sub_pos]
  norm_num [Direction.from_dxy]
  by_cases hb : m.is_within_bounds ⟨a.x + 1, a.y⟩ = true
  · simp only [hb]
    split_ifs <;> simp_all
  · simp_all

/-- Helper for C1, horizontal-left step. -/
theorem mbw_none_hl (m : Map) (a b : Pos) (hx : b.x - a.x = -1) (hy : b.y - a.y = 0) :
    m.move_blocked_by_wall a b = none ↔
      (m.is_within_bounds b = true ∧ spec_separates m a b = false) := by
  have hbx : b = ⟨a.x - 1, a.y⟩ := by cases a; cases b; simp_all; omega
  subst hbx
  simp only [Map.move_blocked_by_wall, spec_separates, sub_pos]
  norm_num [Direction.from_dxy]
  simp only [sub_eq_add_neg]
  by_cases hb : m.is_within_bounds ⟨a.x + -1, a.y⟩ = true
  · simp only [hb]
    split_ifs <;> simp_all
  · simp_all

/-- Helper for C1, vertical-down step. -/
theorem mbw_none_vd (m : Map) (a b : Pos) (hx : b.x - a.x = 0) (hy : b.y - a.y = 1) :
    m.move_blocked_by_wall a b = none ↔
      (m.is_within_bounds b = true ∧ spec_separates m a b = false) := by
  have hbx : b = ⟨a.x, a.y + 1⟩ := by cases a; cases b; simp_all; omega
  subst hbx
  simp only [Map.move_blocked_by_wall, spec_separates, sub_pos]
  norm_num [Direction.from_dxy]
  by_cases hb : m.is_within_bounds ⟨a.x, a.y + 1⟩ = true
  · simp only [hb]
    split_ifs <;> simp_all
  · simp_all

/-- Helper for C1, vertical-up step. -/
theorem mbw_none_vu (m : Map) (a b : Pos) (hx : b.x - a.x = 0) (hy : b.y - a.y = -1) :
    m.move_blocked_by_wall a b = none ↔
      (m.is_within_bounds b = true ∧ spec_separates m a b = false) := by
  have hbx : b = ⟨a.x, a.y - 1⟩ := by cases a; cases b; simp_all; omega
  subst hbx
  simp only [Map.move_blocked_by_wall, spec_separates, sub_pos]
  norm_num [Direction.from_dxy]
  simp only [sub_eq_add_neg]
  by_cases hb : m.is_within_bounds ⟨a.x, a.y + -1⟩ = true
  · simp only [hb]
    split_ifs <;> simp_all
  · simp_all

/-- Helper for C1, down-right step. -/
theorem mbw_none_dr (m : Map) (a b : Pos) (hx : b.x - a.x = 1) (hy : b.y - a.y = 1) :
    m.move_blocked_by_wall a b = none ↔
      (m.is_within_bounds b = true ∧ spec_separates m a b = false) := by
  have hbx : b = ⟨a.x + 1, a.y + 1⟩ := by cases a; cases b; simp_all; omega
  subst hbx
  simp only [Map.move_blocked_by_wall, spec_separates, sub_pos]
  norm_num [Direction.from_dxy]
  by_cases hb : m.is_within_bounds ⟨a.x + 1, a.y + 1⟩ = true
  · simp only [hb]
    split_ifs <;> simp_all
  · simp_all

/-- Helper for C1, up-right step. -/
theorem mbw_none_ur (m : Map) (a b : Pos) (hx : b.x - a.x = 1) (hy : b.y - a.y = -1) :
    m.move_blocked_by_wall a b = none ↔
      (m.is_within_bounds b = true ∧ spec_separates m a b = false) := by
  have hbx : b = ⟨a.x + 1, a.y - 1⟩ := by cases a; cases b; simp_all; omega
  subst hbx
  simp only [Map.move_blocked_by_wall, spec_separates, sub_pos]
  norm_num [Direction.from_dxy]
  simp only [sub_eq_add_neg]
  by_cases hb : m.is_within_bounds ⟨a.x + 1, a.y + -1⟩ = true
  · simp only [hb]
    split_ifs <;> simp_all
  · simp_all

/-- Helper for C1, down-left step. -/
theorem mbw_none_dl (m : Map) (a b : Pos) (hx : b.x - a.x = -1) (hy : b.y - a.y = 1) :
    m.move_blocked_by_wall a b = none ↔
      (m.is_within_bounds b = true ∧ spec_separates m a b = false) := by
  have hbx : b = ⟨a.x - 1, a.y + 1⟩ := by cases a; cases b; simp_all; omega
  subst hbx
  simp only [Map.move_blocked_by_wall, spec_separates, sub_pos]
  norm_num [Direction.from_dxy]
  simp only [sub_eq_add_neg]
  by_cases hb : m.is_within_bounds ⟨a.x + -1, a.y + 1⟩ = true
  · simp only [hb]
    split_ifs <;> simp_all
  · simp_all

/-- Helper for C1, up-left step. -/
theorem mbw_none_ul (m : Map) (a b : Pos) (hx : b.x - a.x = -1) (hy : b.y - a.y = -1) :
    m.move_blocked_by_wall a b = none ↔
      (m.is_within_bounds b = true ∧ spec_separates m a b = false) := by
  have hbx : b = ⟨a.x - 1, a.y - 1⟩ := by cases a; cases b; simp_all; omega
  subst hbx
  simp only [Map.move_blocked_by_wall, spec_separates, sub_pos]
  norm_num [Direction.from_dxy]
  simp only [sub_eq_add_neg]
  by_cases hb : m.is_within_bounds ⟨a.x + -1, a.y + -1⟩ = true
  · simp only [hb]
    split_ifs <;> simp_all
  · simp_all

/-- C1: for 8-adjacent cells `a` (inside the grid — for a diagonal step
from outside the grid the Rust indexes out of the tile arrays) and `b`,
`move_blocked_by_wall a b` returns `None` exactly when `b` is within
bounds and neither a wall edge nor tile occupancy separates `a` from
`b`; otherwise it returns a `Blocked` value. -/
theorem move_blocked_none_iff (m : Map) (a b : Pos)
    (hadj : distance a b = 1) (_ha : m.is_within_bounds a = true) :
    m.move_blocked_by_wall a b = none ↔
      (m.is_within_bounds b = true ∧ spec_separates m a b = false) := by
  have hd : ((b.x - a.x = -1 ∨ b.x - a.x = 0 ∨ b.x - a.x = 1) ∧
      (b.y - a.y = -1 ∨ b.y - a.y = 0 ∨ b.y - a.y = 1)) ∧
      ¬ (b.x - a.x = 0 ∧ b.y - a.y = 0) := by
    rw [distance_eq] at hadj
    omega
  obtain ⟨⟨hx, hy⟩, hnz⟩ := hd
  rcases hx with hx | hx | hx <;> rcases hy with hy | hy | hy
  · exact mbw_none_ul m a b hx hy
  · exact mbw_none_hl m a b hx hy
  · exact mbw_none_dl m a b hx hy
  · exact mbw_none_vu m a b hx hy
  · exact absurd ⟨hx, hy⟩ hnz
  · exact mbw_none_vd m a b hx hy
  · exact mbw_none_ur m a b hx hy
  · exact mbw_none_hr m a b hx hy
  · exact mbw_none_dr m a b hx hy

/-- C1 witness: the characterization applied on a 3×3 grid whose cell
(1,1) has a short left wall, for the diagonal step (0,0) → (1,1) (not
separated: the corner rule needs two blocked edges) and for the step
(0,1) → (1,1) (separated by that wall). -/
theorem move_blocked_none_iff_witness :
    (let m := (Map.from_dims 3 3).setTile ⟨1, 1⟩
      { Tile.empty with left_wall := Wall.ShortWall }
     m.move_blocked_by_wall ⟨0, 0⟩ ⟨1, 1⟩ = none ↔
       (m.is_within_bounds ⟨1, 1⟩ = true ∧ spec_separates m ⟨0, 0⟩ ⟨1, 1⟩ = false)) ∧
    (let m := (Map.from_dims 3 3).setTile ⟨1, 1⟩
      { Tile.empty with left_wall := Wall.ShortWall }
     m.move_blocked_by_wall ⟨0, 1⟩ ⟨1, 1⟩ = none ↔
       (m.is_within_bounds ⟨1, 1⟩ = true ∧ spec_separates m ⟨0, 1⟩ ⟨1, 1⟩ = false)) :=
  ⟨move_blocked_none_iff _ ⟨0, 0⟩ ⟨1, 1⟩ (by decide) (by decide),
   move_blocked_none_iff _ ⟨0, 1⟩ ⟨1, 1⟩ (by decide) (by decide)⟩

/-! ## Claim C2: diagonal sub-checks do not short-circuit -/

/-- The four diagonal sub-checks of `move_blocked_by_wall`, claim-side:
in evaluation order, each pair holds whether the sub-check fires and
the wall type it records (a record cell outside the grid records
nothing; the source skips that write, rendered here as `Wall.Empty`,
which the proof shows is also what the run leaves behind). -/
def diag_checks (m : Map) (pos next_pos : Pos) : List (Bool × Wall) :=
  let dx := next_pos.x - pos.x
  let dy := next_pos.y - pos.y
  let x_moved : Pos := ⟨next_pos.x, pos.y⟩
  let y_moved : Pos := ⟨pos.x, next_pos.y⟩
  if 0 < dx ∧ 0 < dy then
    [ (m.blocked_right pos && m.blocked_down pos, (m.tileD pos).bottom_wall),
      (m.blocked_right (move_y pos (-1)) && m.blocked_down (move_x pos 1),
        if m.is_within_bounds (add_pos pos ⟨-1, 1⟩) then
          (m.tileD (add_pos pos ⟨-1, 1⟩)).bottom_wall else Wall.Empty),
      (m.blocked_right pos && m.blocked_right y_moved,
        (m.tileD (move_x pos 1)).left_wall),
      (m.blocked_down pos && m.blocked_down x_moved, (m.tileD pos).bottom_wall) ]
  else if 0 < dx ∧ dy < 0 then
    [ (m.blocked_up pos && m.blocked_right pos,
        (m.tileD (move_y pos (-1))).bottom_wall),
      (m.blocked_up (move_x pos 1) && m.blocked_right (move_y pos (-1)),
        if m.is_within_bounds (add_pos pos ⟨1, -1⟩) then
          (m.tileD (add_pos pos ⟨1, -1⟩)).bottom_wall else Wall.Empty),
      (m.blocked_right pos && m.blocked_right y_moved,
        (m.tileD (move_x pos 1)).left_wall),
      (m.blocked_up pos && m.blocked_up x_moved,
        (m.tileD (move_y pos (-1))).bottom_wall) ]
  else if dx < 0 ∧ 0 < dy then
    [ (m.blocked_left pos && m.blocked_down pos, (m.tileD pos).left_wall),
      (m.blocked_left (move_y pos 1) && m.blocked_down (move_x pos (-1)),
        if m.is_within_bounds (add_pos pos ⟨1, -1⟩) then
          (m.tileD (add_pos pos ⟨1, -1⟩)).left_wall else Wall.Empty),
      (m.blocked_left pos && m.blocked_left y_moved, (m.tileD pos).left_wall),
      (m.blocked_down pos && m.blocked_down x_moved, (m.tileD pos).bottom_wall) ]
  else if dx < 0 ∧ dy < 0 then
    [ (m.blocked_left (move_y pos (-1)) && m.blocked_up (move_x pos (-1)),
        if m.is_within_bounds (add_pos pos ⟨-1, -1⟩) then
          (m.tileD (add_pos pos ⟨-1, -1⟩)).left_wall else Wall.Empty),
      (m.blocked_left pos && m.blocked_up pos, (m.tileD pos).left_wall),
      (m.blocked_left pos && m.blocked_left y_moved, (m.tileD pos).left_wall),
      (m.blocked_up pos && m.blocked_up x_moved,
        if m.is_within_bounds (move_y pos (-1)) then
          (m.tileD (move_y pos (-1))).bottom_wall else Wall.Empty) ]
  else []

/-- Wall type recorded by the last firing sub-check of a list
(`Wall.Empty` when none fires): each later firing check overwrites the
earlier ones. -/
def last_fired_wall (checks : List (Bool × Wall)) : Wall :=
  checks.foldl (fun acc c => if c.1 then c.2 else acc) Wall.Empty

/-- Helper for C2, down-right step. -/
theorem diag_last_dr (m : Map) (pos next_pos : Pos)
    (hx : next_pos.x - pos.x = 1) (hy : next_pos.y - pos.y = 1)
    (_ha : m.is_within_bounds pos = true) (hb : m.is_within_bounds next_pos = true) :
    ((diag_checks m pos next_pos).any (fun c => c.1) = true →
      (m.move_blocked_by_wall pos next_pos).isSome = true) ∧
    (∀ bl, m.move_blocked_by_wall pos next_pos = some bl →
      bl.wall_type = last_fired_wall (diag_checks m pos next_pos)) := by
  have hbx : next_pos = ⟨pos.x + 1, pos.y + 1⟩ := by
    cases pos; cases next_pos; simp_all; omega
  subst hbx
  simp only [Map.move_blocked_by_wall, diag_checks, last_fired_wall, sub_pos,
    add_pos, move_x, move_y]
  norm_num [Direction.from_dxy]
  (try simp only [sub_eq_add_neg] at hb)
  (try simp only [sub_eq_add_neg])
  simp only [hb, if_true]
  constructor
  · intro hany
    split_ifs <;> simp_all
  · intro bl hbl
    split_ifs at hbl ⊢ <;> (try simp_all) <;> (try rw [← hbl])

/-- Helper for C2, up-right step. -/
theorem diag_last_ur (m : Map) (pos next_pos : Pos)
    (hx : next_pos.x - pos.x = 1) (hy : next_pos.y - pos.y = -1)
    (_ha : m.is_within_bounds pos = true) (hb : m.is_within_bounds next_pos = true) :
    ((diag_checks m pos next_pos).any (fun c => c.1) = true →
      (m.move_blocked_by_wall pos next_pos).isSome = true) ∧
    (∀ bl, m.move_blocked_by_wall pos next_pos = some bl →
      bl.wall_type = last_fired_wall (diag_checks m pos next_pos)) := by
  have hbx : next_pos = ⟨pos.x + 1, pos.y - 1⟩ := by
    cases pos; cases next_pos; simp_all; omega
  subst hbx
  simp only [Map.move_blocked_by_wall, diag_checks, last_fired_wall, sub_pos,
    add_pos, move_x, move_y]
  norm_num [Direction.from_dxy]
  (try simp only [sub_eq_add_neg] at hb)
  (try simp only [sub_eq_add_neg])
  simp only [hb, if_true]
  constructor
  · intro hany
    split_ifs <;> simp_all
  · intro bl hbl
    split_ifs at hbl ⊢ <;> (try simp_all) <;> (try rw [← hbl])

/-- Helper for C2, down-left step. -/
theorem diag_last_dl (m : Map) (pos next_pos : Pos)
    (hx : next_pos.x - pos.x = -1) (hy : next_pos.y - pos.y = 1)
    (_ha : m.is_within_bounds pos = true) (hb : m.is_within_bounds next_pos = true) :
    ((diag_checks m pos next_pos).any (fun c => c.1) = true →
      (m.move_blocked_by_wall pos next_pos).isSome = true) ∧
    (∀ bl, m.move_blocked_by_wall pos next_pos = some bl →
      bl.wall_type = last_fired_wall (diag_checks m pos next_pos)) := by
  have hbx : next_pos = ⟨pos.x - 1, pos.y + 1⟩ := by
    cases pos; cases next_pos; simp_all; omega
  subst hbx
  simp only [Map.move_blocked_by_wall, diag_checks, last_fired_wall, sub_pos,
    add_pos, move_x, move_y]
  norm_num [Direction.from_dxy]
  (try simp only [sub_eq_add_neg] at hb)
  (try simp only [sub_eq_add_neg])
  simp only [hb, if_true]
  constructor
  · intro hany
    split_ifs <;> simp_all
  · intro bl hbl
    split_ifs at hbl ⊢ <;> (try simp_all) <;> (try rw [← hbl])

/-- Helper for C2, up-left step. -/
theorem diag_last_ul (m : Map) (pos next_pos : Pos)
    (hx : next_pos.x - pos.x = -1) (hy : next_pos.y - pos.y = -1)
    (_ha : m.is_within_bounds pos = true) (hb : m.is_within_bounds next_pos = true) :
    ((diag_checks m pos next_pos).any (fun c => c.1) = true →
      (m.move_blocked_by_wall pos next_pos).isSome = true) ∧
    (∀ bl, m.move_blocked_by_wall pos next_pos = some bl →
      bl.wall_type = last_fired_wall (diag_checks m pos next_pos)) := by
  have hbx : next_pos = ⟨pos.x - 1, pos.y - 1⟩ := by
    cases pos; cases next_pos; simp_all; omega
  subst hbx
  simp only [Map.move_blocked_by_wall, diag_checks, last_fired_wall, sub_pos,
    add_pos, move_x, move_y]
  norm_num [Direction.from_dxy]
  (try simp only [sub_eq_add_neg] at hb)
  (try simp only [sub_eq_add_neg])
  have h4 : m.is_within_bounds ⟨pos.x, pos.y + -1⟩ = true := by
    have ha' := _ha
    have hb' := hb
    simp only [Map.is_within_bounds, decide_eq_true_eq] at ha' hb' ⊢
    omega
  simp only [hb, if_true]
  constructor
  · intro hany
    split_ifs <;> simp_all
  · intro bl hbl
    split_ifs at hbl ⊢ <;> (try simp_all) <;> (try rw [← hbl])

/-- C2: for a diagonal single-step move between in-grid cells, the four
corner sub-checks are evaluated without short-circuiting: any firing
sub-check makes the result an obstruction, and the `Blocked` value's
`wall_type` is the wall type recorded by the last sub-check that fired
(later firing checks overwrite earlier ones; a firing far-corner check
whose record cell lies outside the grid leaves no record, and in
exactly those situations no earlier check has recorded either, so the
wall type is `Empty`). -/
theorem diag_wall_type_last_fired (m : Map) (pos next_pos : Pos)
    (hx : next_pos.x - pos.x = 1 ∨ next_pos.x - pos.x = -1)
    (hy : next_pos.y - pos.y = 1 ∨ next_pos.y - pos.y = -1)
    (ha : m.is_within_bounds pos = true) (hb : m.is_within_bounds next_pos = true) :
    ((diag_checks m pos next_pos).any (fun c => c.1) = true →
      (m.move_blocked_by_wall pos next_pos).isSome = true) ∧
    (∀ bl, m.move_blocked_by_wall pos next_pos = some bl →
      bl.wall_type = last_fired_wall (diag_checks m pos next_pos)) := by
  rcases hx with hx | hx <;> rcases hy with hy | hy
  · exact diag_last_dr m pos next_pos hx hy ha hb
  · exact diag_last_ur m pos next_pos hx hy ha hb
  · exact diag_last_dl m pos next_pos hx hy ha hb
  · exact diag_last_ul m pos next_pos hx hy ha hb

/-- Map of the C2 witness: a 4×4 grid built so that for the down-right
step (1,1) → (2,2) the third sub-check fires recording a TallWall and
the fourth fires after it recording a ShortWall. -/
def c2_map : Map :=
  (((Map.from_dims 4 4).setTile ⟨2, 1⟩
    { Tile.empty with left_wall := Wall.TallWall, bottom_wall := Wall.TallWall }).setTile ⟨2, 2⟩
    { Tile.empty with left_wall := Wall.ShortWall }).setTile ⟨1, 1⟩
    { Tile.empty with bottom_wall := Wall.ShortWall }

/-- C2 witness: the theorem applied to `c2_map` at the diagonal step
(1,1) → (2,2); the later firing sub-check overwrites, so the blocked
result carries its ShortWall. -/
theorem diag_wall_type_last_fired_witness :
    ((diag_checks c2_map ⟨1, 1⟩ ⟨2, 2⟩).any (fun c => c.1) = true →
      (c2_map.move_blocked_by_wall ⟨1, 1⟩ ⟨2, 2⟩).isSome = true) ∧
    (∀ bl, c2_map.move_blocked_by_wall ⟨1, 1⟩ ⟨2, 2⟩ = some bl →
      bl.wall_type = last_fired_wall (diag_checks c2_map ⟨1, 1⟩ ⟨2, 2⟩)) :=
  diag_wall_type_last_fired c2_map ⟨1, 1⟩ ⟨2, 2⟩ (Or.inl (by decide)) (Or.inl (by decide))
    (by decide) (by decide)

/-- Overwrite demonstration accompanying the C2 witness: on that map
the third sub-check records TallWall, yet the returned wall type is the
fourth (last firing) sub-check's ShortWall. -/
theorem diag_overwrite_demo :
    ((diag_checks c2_map ⟨1, 1⟩ ⟨2, 2⟩).map Prod.fst = [true, false, true, true] ∧
     (diag_checks c2_map ⟨1, 1⟩ ⟨2, 2⟩).map Prod.snd =
       [Wall.ShortWall, Wall.Empty, Wall.TallWall, Wall.ShortWall]) ∧
    (c2_map.move_blocked_by_wall ⟨1, 1⟩ ⟨2, 2⟩).map Blocked.wall_type =
      some Wall.ShortWall := by decide

/-! ## Claim C4: ShortWall attenuation vs TallWall/occupancy termination -/

/-- Map of the C4 counterexample: a 3×3 grid whose cell (1,1) is a full
wall tile and additionally owns a tall left edge wall. -/
def c4_map : Map :=
  (Map.from_dims 3 3).setTile ⟨1, 1⟩ { Tile.wall with left_wall := Wall.TallWall }

/-- Probe: the obstruction on the line (0,1) → (1,1) is a TallWall and
the wall face is reported visible. -/
example :
    (c4_map.is_blocked_by_wall ⟨0, 1⟩ 1 0).map Blocked.wall_type =
      some Wall.TallWall ∧
    c4_map.is_in_fov ⟨0, 1⟩ ⟨1, 1⟩ 5 = true := by decide

/-! ## Claim C5 probes -/

/-- Map of the C5 culling witness: a 6×3 grid with a wall tile at (2,1);
the direct line (0,0) → (4,1) misses it but the line to the
next-to-last point (3,1) passes it. -/
def c5_map : Map :=
  (Map.from_dims 6 3).setTile ⟨2, 1⟩ Tile.wall

example :
    line ⟨0, 0⟩ ⟨4, 1⟩ = [⟨1, 0⟩, ⟨2, 0⟩, ⟨3, 1⟩, ⟨4, 1⟩] ∧
    line ⟨0, 0⟩ ⟨3, 1⟩ = [⟨1, 0⟩, ⟨2, 1⟩, ⟨3, 1⟩] := by decide

example :
    c5_map.is_in_fov ⟨0, 0⟩ ⟨3, 1⟩ 10 = false ∧
    needs_culling_at c5_map 10 ((distance ⟨0, 0⟩ ⟨4, 1⟩).toNat) ⟨0, 0⟩ ⟨4, 1⟩ = true ∧
    c5_map.is_in_fov ⟨0, 0⟩ ⟨4, 1⟩ 10 = false ∧
    fov_line c4_map ⟨0, 1⟩ ⟨1, 1⟩ 5 false = ⟨0, 1⟩ := by decide

/-- Helper: the walk stops at `start` when the first obstruction toward
`dest` is not a passable ShortWall. -/
theorem fov_line_stops (m : Map) (s e : Pos) (r : Int) (b : Blocked)
    (hne : s ≠ e)
    (hbl : m.is_blocked_by_wall s (e.x - s.x) (e.y - s.y) = some b)
    (hw : b.wall_type ≠ Wall.ShortWall) :
    fov_line m s e r false = s := by
  simp only [fov_line, fov_line_walk]
  rw [if_neg hne, hbl]
  simp [hw]

/-- C4 (amended): with an obstruction reported on the line from `s`
to `e` — (i) if it is a ShortWall whose far side lies at distance `d`
on the way to `e`, vision fails at every radius `r < d + 1`
(`r ≤ d ≤ distance s e`, so the radius guard already denies it; at
larger radius the attenuated walk may still succeed); (ii) if it is a
TallWall or a tile occupancy, the walk terminates at the obstruction —
it never reaches the target at any radius — but a sight-blocking cell
immediately beyond the obstruction can still be reported visible
through the wall-face rule, so "never visible" does not hold of such
cells (see the counterexample). -/
theorem fov_wall_between (m : Map) (s e : Pos) (r d : Int) (b : Blocked)
    (hbl : m.is_blocked_by_wall s (e.x - s.x) (e.y - s.y) = some b) :
    (b.wall_type = Wall.ShortWall → distance s b.end_pos = d →
      d ≤ distance s e → r < d + 1 → m.is_in_fov s e r = false) ∧
    (b.wall_type ≠ Wall.ShortWall → fov_line m s e r false = s) := by
  have hne : s ≠ e := by
    intro h
    subst h
    have hz : s.x - s.x = 0 ∧ s.y - s.y = 0 := by omega
    rw [hz.1, hz.2] at hbl
    simp [Map.is_blocked_by_wall] at hbl
  constructor
  · intro _ hd hdle hr
    exact fov_far_helper m s e r hne (by omega)
  · intro hw
    exact fov_line_stops m s e r b hne hbl hw

/-- C4 counterexample: on `c4_map` a TallWall edge lies on the line
strictly between (0,1) and the cell (1,1) beyond it, yet
`is_in_fov((0,1), (1,1), 5)` is `true` — the forward walk stops before
the wall, but the target is adjacent and blocks sight, so the wall-face
rule reports it visible; "cells beyond a TallWall are never visible
regardless of radius" fails. -/
theorem tall_wall_face_visible :
    (c4_map.is_blocked_by_wall ⟨0, 1⟩ 1 0).map Blocked.wall_type =
      some Wall.TallWall ∧
    fov_line c4_map ⟨0, 1⟩ ⟨1, 1⟩ 5 false = ⟨0, 1⟩ ∧
    c4_map.is_in_fov ⟨0, 1⟩ ⟨1, 1⟩ 5 = true := by decide

/-- Map of the C4 witness part (i): a 4×4 grid with a short left wall
on cell (1,1). -/
def c4_short_map : Map :=
  (Map.from_dims 4 4).setTile ⟨1, 1⟩ { Tile.empty with left_wall := Wall.ShortWall }

/-- C4 witness: the theorem applied concretely — (i) on `c4_short_map`,
the ShortWall at distance 1 on the line (0,1) → (2,1) denies vision at
radius 1 < d + 1 = 2; (ii) on `c4_map`, the TallWall obstruction stops
the walk at the start. -/
theorem fov_wall_between_witness :
    c4_short_map.is_in_fov ⟨0, 1⟩ ⟨2, 1⟩ 1 = false ∧
    fov_line c4_map ⟨0, 1⟩ ⟨1, 1⟩ 5 false = ⟨0, 1⟩ :=
  ⟨((fov_wall_between c4_short_map ⟨0, 1⟩ ⟨2, 1⟩ 1 1
      { start_pos := ⟨0, 1⟩, end_pos := ⟨1, 1⟩, direction := Direction.Left,
        blocked_tile := false, wall_type := Wall.ShortWall } (by decide)).1
      (by decide) (by decide) (by decide) (by decide)),
   ((fov_wall_between c4_map ⟨0, 1⟩ ⟨1, 1⟩ 5 1
      { start_pos := ⟨0, 1⟩, end_pos := ⟨1, 1⟩, direction := Direction.Left,
        blocked_tile := true, wall_type := Wall.TallWall } (by decide)).2
      (by decide))⟩

/-! ## Claim C5: bidirectional check and artifact culling -/

/-- C5: (i) when the forward walk does not reach the target, the
result can only be `true` via the reverse walk reaching the observer or
the last reached cell being adjacent to a sight-blocking target (the
wall-face rule); (ii) whenever `needs_culling` fires in either
direction (as executed at the top-level call's recursion depth), the
result is suppressed to `false`. -/
theorem fov_bidirectional_and_culling (m : Map) (s e : Pos) (r : Int) :
    (fov_line m s e r false ≠ e → m.is_in_fov s e r = true →
      (fov_line m e s r false = s ∨
        (distance (fov_line m s e r false) e = 1 ∧ (m.tileD e).block_sight = true))) ∧
    ((needs_culling_at m r ((distance s e).toNat) s e = true ∨
      needs_culling_at m r ((distance s e).toNat) e s = true) →
      m.is_in_fov s e r = false) := by
  constructor
  · intro hfwd h
    by_cases hse : s = e
    · subst hse
      exact absurd (by simp [fov_line, fov_line_walk]) hfwd
    · simp only [Map.is_in_fov, Map.is_in_fov_lines, is_in_fov_f] at h
      rw [if_neg hse] at h
      split_ifs at h <;>
        first
          | (exact absurd (by assumption) hfwd)
          | simp_all
          | tauto
  · intro hcull
    by_cases hse : s = e
    · exfalso
      subst hse
      have hl : line s s = [] := by
        simp [line, sub_self, lineY]
      simp only [needs_culling_at, needs_culling_gen, hl] at hcull
      simp at hcull
    · simp only [Map.is_in_fov, Map.is_in_fov_lines, is_in_fov_f]
      rw [if_neg hse]
      simp only [needs_culling_at] at hcull
      rcases hcull with hc | hc <;> split_ifs <;> simp_all

/-- C5 witness: part (i) applied on `c4_map` (forward walk stops before
the tall wall, result true via the wall-face clause) and part (ii)
applied on `c5_map` (culling of the diverging line to (4,1) suppresses
the result). -/
theorem fov_bidirectional_and_culling_witness :
    (fov_line c4_map ⟨1, 1⟩ ⟨0, 1⟩ 5 false = ⟨0, 1⟩ ∨
      (distance (fov_line c4_map ⟨0, 1⟩ ⟨1, 1⟩ 5 false) ⟨1, 1⟩ = 1 ∧
        (c4_map.tileD ⟨1, 1⟩).block_sight = true)) ∧
    c5_map.is_in_fov ⟨0, 0⟩ ⟨4, 1⟩ 10 = false :=
  ⟨(fov_bidirectional_and_culling c4_map ⟨0, 1⟩ ⟨1, 1⟩ 5).1 (by decide) (by decide),
   (fov_bidirectional_and_culling c5_map ⟨0, 0⟩ ⟨4, 1⟩ 10).2 (Or.inl (by decide))⟩

/-! ## Claim C6: floodfill -/

/-- Helper: a predicate preserved by each fold step is preserved by the
fold. -/
theorem foldl_pres {α β : Type} (step : α → β → α) (P : α → Prop)
    (h : ∀ st x, P st → P (step st x)) :
    ∀ (l : List β) (st : α), P st → P (l.foldl step st) := by
  intro l
  induction l with
  | nil => intro st h0; exact h0
  | cons x xs ih => intro st h0; exact ih _ (h st x h0)

/-- Helper: appending one fresh element keeps a list duplicate-free. -/
theorem nodup_append_single {α : Type} (l : List α) (a : α)
    (h : a ∉ l) (hl : l.Nodup) : (l ++ [a]).Nodup := by
  simp [List.nodup_append, hl, h]

/-- The floodfill state invariant: the seen and flood vectors are the
same list (they are pushed identically), it is duplicate-free, and it
stays headed by the origin. -/
def floodInv (start : Pos) (st : FState) : Prop :=
  st.seen = st.flood ∧ st.seen.Nodup ∧ st.flood.head? = some start

theorem floodPush_inv (start : Pos) (st : FState) (p : Pos)
    (h : floodInv start st) : floodInv start (floodPush st p) := by
  obtain ⟨hsf, hnd, hhd⟩ := h
  unfold floodPush
  split_ifs with hp
  · exact ⟨hsf, hnd, hhd⟩
  · refine ⟨by rw [hsf], nodup_append_single _ _ hp hnd, ?_⟩
    cases hfl : st.flood with
    | nil => rw [hfl] at hhd; simp at hhd
    | cons a l => rw [hfl] at hhd; simpa using hhd

theorem floodLoop_inv (m : Map) (start : Pos) (radius : Nat) :
    ∀ (k : Nat) (st : FState), floodInv start st →
      floodInv start (floodLoop m start radius k st) := by
  intro k
  induction k with
  | zero => intro st h; exact h
  | succ n ih =>
    intro st h
    refine ih _ ?_
    unfold floodIter
    refine foldl_pres _ (floodInv start) ?_ _ _ ?_
    · intro st' pos hst'
      exact foldl_pres _ (floodInv start)
        (fun st'' nc hst'' => floodPush_inv start st'' nc.1 hst'') _ _ hst'
    · exact ⟨h.1, h.2.1, h.2.2⟩

/-- Probe: the radius-1 flood from (5,5) on an open 10×10 grid, in
insertion order (origin, then the eight deltas in source order). -/
example :
    (Map.from_dims 10 10).floodfill ⟨5, 5⟩ 1 =
      [⟨5, 5⟩, ⟨6, 5⟩, ⟨6, 6⟩, ⟨5, 6⟩, ⟨4, 6⟩, ⟨4, 5⟩, ⟨4, 4⟩, ⟨5, 4⟩, ⟨6, 4⟩] := by
  decide

/-- C6: `floodfill(origin, 0)` is exactly `[origin]` on every map; on
the open 10×10 grid the radius-1 flood from the interior origin (5,5)
is exactly the origin plus its 8 neighbors (9 cells, insertion order);
and every floodfill result is duplicate-free. -/
theorem floodfill_props (m : Map) (s : Pos) (r : Nat) :
    (m.floodfill s 0 = [s]) ∧
    ((Map.from_dims 10 10).floodfill ⟨5, 5⟩ 1 =
      [⟨5, 5⟩, ⟨6, 5⟩, ⟨6, 6⟩, ⟨5, 6⟩, ⟨4, 6⟩, ⟨4, 5⟩, ⟨4, 4⟩, ⟨5, 4⟩, ⟨6, 4⟩]) ∧
    (m.floodfill s r).Nodup := by
  refine ⟨rfl, by decide, ?_⟩
  have h := floodLoop_inv m s r r ⟨[s], [s], [s]⟩
    ⟨rfl, List.nodup_singleton s, rfl⟩
  have := h.1
  have hnd := h.2.1
  unfold Map.floodfill
  rw [← this]
  exact hnd

/-! ## Claim C8: astar_path -/

/-- A list of cells is a chain of single-step reachable moves from `p`. -/
def chain_ok (m : Map) : Pos → List Pos → Bool
  | _, [] => true
  | p, q :: l => decide (q ∈ m.reachable_neighbors p) && chain_ok m q l

/-- A nonempty path from `a` to `b` through reachable steps. -/
def is_valid_path (m : Map) (a b : Pos) : List Pos → Bool
  | [] => false
  | p :: l => decide (p = a) && decide ((p :: l).getLast? = some b) && chain_ok m p l

theorem extractMin_mem (f : Pos × List Pos × Int → Int) :
    ∀ (l : List (Pos × List Pos × Int)) (e : Pos × List Pos × Int)
      (rest : List (Pos × List Pos × Int)),
      extractMin f l = some (e, rest) → e ∈ l ∧ ∀ x ∈ rest, x ∈ l := by
  intro l
  induction l with
  | nil => intro e rest h; simp [extractMin] at h
  | cons e0 r ih =>
    intro e rest h
    rw [extractMin] at h
    cases hr : extractMin f r with
    | none =>
      rw [hr] at h
      dsimp only at h
      simp only [Option.some.injEq, Prod.mk.injEq] at h
      obtain ⟨he, hrest⟩ := h
      subst he
      subst hrest
      exact ⟨List.mem_cons_self e0 r, by intro x hx; simp at hx⟩
    | some pr =>
      obtain ⟨e2, rest2⟩ := pr
      rw [hr] at h
      dsimp only at h
      obtain ⟨h2, h3⟩ := ih e2 rest2 hr
      split_ifs at h with hf
      · simp only [Option.some.injEq, Prod.mk.injEq] at h
        obtain ⟨he, hrest⟩ := h
        subst he
        subst hrest
        exact ⟨List.mem_cons_self _ _, by intro x hx; exact List.mem_cons_of_mem _ hx⟩
      · simp only [Option.some.injEq, Prod.mk.injEq] at h
        obtain ⟨he, hrest⟩ := h
        subst he
        subst hrest
        refine ⟨List.mem_cons_of_mem _ h2, ?_⟩
        intro x hx
        rcases List.mem_cons.mp hx with rfl | hx'
        · exact List.mem_cons_self _ _
        · exact List.mem_cons_of_mem _ (h3 x hx')

theorem getLast?_append_single {α : Type} (l : List α) (a : α) :
    (l ++ [a]).getLast? = some a := by
  induction l with
  | nil => rfl
  | cons x xs ih =>
    cases hxs : xs ++ [a] with
    | nil => exact absurd hxs (by simp)
    | cons y ys =>
      rw [List.cons_append, hxs, List.getLast?_cons_cons, ← hxs, ih]

theorem chain_ok_append (m : Map) (q : Pos) :
    ∀ (l : List Pos) (p0 p : Pos), chain_ok m p0 l = true →
      (p0 :: l).getLast? = some p → q ∈ m.reachable_neighbors p →
      chain_ok m p0 (l ++ [q]) = true := by
  intro l
  induction l with
  | nil =>
    intro p0 p hc hl hq
    have hl' : p0 = p := by simpa using hl
    subst hl'
    simp [chain_ok, hq]
  | cons x xs ih =>
    intro p0 p hc hl hq
    simp only [chain_ok, Bool.and_eq_true, decide_eq_true_eq] at hc
    simp only [List.cons_append, chain_ok, Bool.and_eq_true, decide_eq_true_eq]
    refine ⟨hc.1, ih x p hc.2 ?_ hq⟩
    rwa [List.getLast?_cons_cons] at hl

theorem is_valid_path_append (m : Map) (a p q : Pos) (l : List Pos)
    (h : is_valid_path m a p l = true) (hq : q ∈ m.reachable_neighbors p) :
    is_valid_path m a q (l ++ [q]) = true := by
  cases l with
  | nil => simp [is_valid_path] at h
  | cons p0 l' =>
    simp only [is_valid_path, Bool.and_eq_true, decide_eq_true_eq] at h
    obtain ⟨⟨ha, hlast⟩, hchain⟩ := h
    subst ha
    have h1 : (p0 :: (l' ++ [q])).getLast? = some q := by
      rw [show (p0 :: (l' ++ [q])) = ((p0 :: l') ++ [q]) from by simp]
      exact getLast?_append_single _ _
    simp only [List.cons_append, is_valid_path, Bool.and_eq_true, decide_eq_true_eq]
    refine ⟨⟨by simp, ?_⟩, chain_ok_append m q l' p0 p hchain hlast hq⟩
    simpa using h1

theorem astar_neighbors_mem (m : Map) (start pos n : Pos) (c : Int)
    (md : Option Int) (h : (n, c) ∈ astar_neighbors m start pos md) :
    n ∈ m.reachable_neighbors pos := by
  cases md with
  | none =>
    simp only [astar_neighbors, List.mem_map] at h
    obtain ⟨p, hp, hpe⟩ := h
    cases hpe
    exact hp
  | some v =>
    simp only [astar_neighbors] at h
    split_ifs at h
    · simp at h
    · simp only [List.mem_map] at h
      obtain ⟨p, hp, hpe⟩ := h
      cases hpe
      exact hp

theorem astar_loop_sound (m : Map) (a b : Pos) (md : Option Int)
    (cf : Option (Pos → Pos → Map → Int)) :
    ∀ (fuel : Nat) (frontier : List (Pos × List Pos × Int)) (visited : List Pos),
      (∀ ent ∈ frontier, is_valid_path m a ent.1 ent.2.1 = true) →
      (astar_loop m a b md cf fuel frontier visited = [] ∨
        is_valid_path m a b (astar_loop m a b md cf fuel frontier visited) = true) := by
  intro fuel
  induction fuel with
  | zero => intro frontier visited _; exact Or.inl rfl
  | succ n ih =>
    intro frontier visited hinv
    rw [astar_loop]
    cases hx : extractMin (fun ent => ent.2.2 + astar_h m a b cf ent.1) frontier with
    | none => exact Or.inl rfl
    | some pr =>
      obtain ⟨ent, rest⟩ := pr
      dsimp only
      obtain ⟨hmem, hsub⟩ := extractMin_mem _ frontier ent rest hx
      have hent := hinv ent hmem
      split_ifs with hgoal hvis
      · right
        rw [← hgoal]
        exact hent
      · exact ih rest visited (fun e he => hinv e (hsub e he))
      · refine ih _ _ ?_
        intro e he
        rcases List.mem_append.mp he with he' | he'
        · exact hinv e (hsub e he')
        · simp only [List.mem_map] at he'
          obtain ⟨nc, hnc, hne⟩ := he'
          subst hne
          exact is_valid_path_append m a ent.1 nc.1 ent.2.1 hent
            (astar_neighbors_mem m a ent.1 nc.1 nc.2 md hnc)

/-- C8: `astar_path` never fails (it is a total function into plain
lists), `astar_path(a, a)` is the single-element path `[a]`, and every
nonempty result is a genuine reachable-step path from `a` to `b` — so
when no path exists the result can only be the empty sequence. -/
theorem astar_path_props (m : Map) (a b : Pos) (md : Option Int)
    (cf : Option (Pos → Pos → Map → Int)) :
    (astar_path m a a md cf = [a]) ∧
    (astar_path m a b md cf = [] ∨
      is_valid_path m a b (astar_path m a b md cf) = true) := by
  constructor
  · unfold astar_path
    obtain ⟨k, hk⟩ : ∃ k, 9 * (m.width.toNat * m.height.toNat + 2) = k + 1 :=
      ⟨9 * (m.width.toNat * m.height.toNat + 2) - 1, by omega⟩
    rw [hk, astar_loop]
    simp [extractMin]
  · exact astar_loop_sound m a b md cf _ _ _
      (by
        intro ent hent
        simp only [List.mem_singleton] at hent
        subst hent
        simp [is_valid_path, chain_ok])

/-- Probe: a fully enclosed target yields the empty path (3×3 grid, the
target (2,2) fenced off by wall tiles), and a free target yields a
valid path. -/
example :
    let m := (((Map.from_dims 3 3).setTile ⟨1, 1⟩ Tile.wall).setTile ⟨1, 2⟩
      Tile.wall).setTile ⟨2, 1⟩ Tile.wall
    astar_path m ⟨0, 0⟩ ⟨2, 2⟩ none none = [] ∧
    astar_path (Map.from_dims 3 3) ⟨0, 0⟩ ⟨2, 2⟩ none none =
      [⟨0, 0⟩, ⟨1, 1⟩, ⟨2, 2⟩] := by decide

/-! ## Claim C7: aoe_fill rings -/

/-- Spec-side dampening exclusion of C7: the cell lies beyond the
clamped `blocked_radius` and an edge obstruction exists in both
directions (origin to cell and cell to origin). -/
def aoe_excluded (m : Map) (start : Pos) (blocked_radius : Int) (p : Pos) : Prop :=
  blocked_radius < distance start p ∧
  (m.is_blocked_by_wall start (p.x - start.x) (p.y - start.y)).isSome = true ∧
  (m.is_blocked_by_wall p (start.x - p.x) (start.y - p.y)).isSome = true

instance (m : Map) (start : Pos) (br : Int) (p : Pos) :
    Decidable (aoe_excluded m start br p) := by
  unfold aoe_excluded
  infer_instance

/-- The keep test of `aoeStep`, extracted. -/
def aoe_keep (m : Map) (start : Pos) (blocked_radius : Int) (p : Pos) : Bool :=
  let is_blocked := (m.is_blocked_by_wall start (p.x - start.x) (p.y - start.y)).isSome &&
    (m.is_blocked_by_wall p (start.x - p.x) (start.y - p.y)).isSome
  !is_blocked || (is_blocked && distance start p ≤ blocked_radius)

theorem aoeStep_eq (m : Map) (start : Pos) (br : Int)
    (acc : List (List Pos)) (p : Pos) :
    aoeStep m start br acc p =
      if aoe_keep m start br p then
        acc.set (distance start p).toNat ((acc.getD (distance start p).toNat []) ++ [p])
      else acc := rfl

theorem aoe_keep_iff (m : Map) (start : Pos) (br : Int) (p : Pos) :
    aoe_keep m start br p = true ↔ ¬ aoe_excluded m start br p := by
  unfold aoe_keep aoe_excluded
  by_cases h1 : (m.is_blocked_by_wall start (p.x - start.x) (p.y - start.y)).isSome = true <;>
    by_cases h2 : (m.is_blocked_by_wall p (start.x - p.x) (start.y - p.y)).isSome = true <;>
    simp [h1, h2] <;>
    omega

theorem aoeStep_length (m : Map) (start : Pos) (br : Int)
    (acc : List (List Pos)) (p : Pos) :
    (aoeStep m start br acc p).length = acc.length := by
  rw [aoeStep_eq]
  split_ifs <;> simp

/-- Membership in the flattened buckets after a single `set`-append. -/
theorem mem_flatten_set (p q : Pos) :
    ∀ (acc : List (List Pos)) (i : Nat), i < acc.length →
      (q ∈ (acc.set i ((acc.getD i []) ++ [p])).flatten ↔ q ∈ acc.flatten ∨ q = p) := by
  intro acc
  induction acc with
  | nil => intro i hi; simp at hi
  | cons a rest ih =>
    intro i hi
    cases i with
    | zero =>
      simp only [List.getD_cons_zero, List.set, List.flatten_cons, List.mem_append,
        List.mem_singleton]
      tauto
    | succ j =>
      have hj : j < rest.length := by simpa using hi
      simp only [List.getD_cons_succ, List.set, List.flatten_cons, List.mem_append]
      rw [ih j hj]
      tauto

/-- Membership in the flattened buckets after the whole fold. -/
theorem mem_flatten_fold (m : Map) (start : Pos) (br : Int) :
    ∀ (l : List Pos) (acc : List (List Pos)),
      (∀ p ∈ l, (distance start p).toNat < acc.length) → ∀ (q : Pos),
      (q ∈ (l.foldl (aoeStep m start br) acc).flatten ↔
        q ∈ acc.flatten ∨ (q ∈ l ∧ aoe_keep m start br q = true)) := by
  intro l
  induction l with
  | nil => intro acc _ q; simp
  | cons p l' ih =>
    intro acc hlt q
    have hlen : (aoeStep m start br acc p).length = acc.length :=
      aoeStep_length m start br acc p
    have hlt' : ∀ x ∈ l', (distance start x).toNat < (aoeStep m start br acc p).length := by
      intro x hx
      rw [hlen]
      exact hlt x (List.mem_cons_of_mem _ hx)
    rw [List.foldl_cons, ih _ hlt']
    have hstep : q ∈ (aoeStep m start br acc p).flatten ↔
        q ∈ acc.flatten ∨ (q = p ∧ aoe_keep m start br p = true) := by
      rw [aoeStep_eq]
      split_ifs with hk
      · rw [mem_flatten_set p q acc _ (hlt p (List.mem_cons_self _ _))]
        tauto
      · simp only [Bool.not_eq_true] at hk
        simp [hk]
    rw [hstep]
    constructor
    · rintro ((hq | ⟨rfl, hkp⟩) | ⟨hql, hkq⟩)
      · exact Or.inl hq
      · exact Or.inr ⟨List.mem_cons_self _ _, hkp⟩
      · exact Or.inr ⟨List.mem_cons_of_mem _ hql, hkq⟩
    · rintro (hq | ⟨hqm, hkq⟩)
      · exact Or.inl (Or.inl hq)
      · rcases List.mem_cons.mp hqm with rfl | hql
        · exact Or.inl (Or.inr ⟨rfl, hkq⟩)
        · exact Or.inr ⟨hql, hkq⟩

/-- Bucket 0 after a `set` at a nonzero index. -/
theorem getD0_set_ne (acc : List (List Pos)) (i : Nat) (v : List Pos)
    (hi : i ≠ 0) : (acc.set i v).getD 0 [] = acc.getD 0 [] := by
  cases acc with
  | nil => simp
  | cons a rest =>
    cases i with
    | zero => exact absurd rfl hi
    | succ j => simp [List.set]

/-- Bucket 0 after a `set` at index 0. -/
theorem getD0_set_zero (acc : List (List Pos)) (v : List Pos)
    (h : 0 < acc.length) : (acc.set 0 v).getD 0 [] = v := by
  cases acc with
  | nil => simp at h
  | cons a rest => simp [List.set]

/-- Bucket 0 after the whole fold: the kept cells at distance 0, in
flood order, appended to the initial bucket. -/
theorem getD0_fold (m : Map) (start : Pos) (br : Int) :
    ∀ (l : List Pos) (acc : List (List Pos)),
      (∀ p ∈ l, (distance start p).toNat < acc.length) →
      (l.foldl (aoeStep m start br) acc).getD 0 [] =
        acc.getD 0 [] ++ (l.filter (fun p =>
          aoe_keep m start br p && decide ((distance start p).toNat = 0))) := by
  intro l
  induction l with
  | nil => intro acc _; simp
  | cons p l' ih =>
    intro acc hlt
    have hlen : (aoeStep m start br acc p).length = acc.length :=
      aoeStep_length m start br acc p
    have hlt' : ∀ x ∈ l', (distance start x).toNat < (aoeStep m start br acc p).length := by
      intro x hx
      rw [hlen]
      exact hlt x (List.mem_cons_of_mem _ hx)
    rw [List.foldl_cons, ih _ hlt']
    rw [aoeStep_eq]
    by_cases hk : aoe_keep m start br p = true
    · by_cases hz : (distance start p).toNat = 0
      · rw [if_pos hk, hz,
          getD0_set_zero acc _ (by have := hlt p (List.mem_cons_self _ _); omega),
          List.filter_cons, if_pos (by simp [hk, hz])]
        simp [List.append_assoc]
      · rw [if_pos hk, getD0_set_ne acc _ _ hz, List.filter_cons,
          if_neg (by simp [hz])]
    · rw [if_neg hk, List.filter_cons,
        if_neg (by intro hcond; exact hk ((Bool.and_eq_true _ _).mp hcond).1)]

/-- Helper: fold preservation where the step law may use membership of
the element in the folded list. -/
theorem foldl_pres_mem {α β : Type} (step : α → β → α) (P : α → Prop) :
    ∀ (l : List β), (∀ st x, x ∈ l → P st → P (step st x)) →
      ∀ st, P st → P (l.foldl step st) := by
  intro l
  induction l with
  | nil => intro _ st h0; exact h0
  | cons x xs ih =>
    intro h st h0
    exact ih (fun st' y hy => h st' y (List.mem_cons_of_mem _ hy)) _
      (h st x (List.mem_cons_self _ _) h0)

/-- A reachable neighbor is one king-move away. -/
theorem reachable_dist (m : Map) (s pos n : Pos)
    (hn : n ∈ m.reachable_neighbors pos) :
    distance s n ≤ distance s pos + 1 := by
  simp only [Map.reachable_neighbors, List.mem_filterMap] at hn
  obtain ⟨d, hd, hif⟩ := hn
  split_ifs at hif with hblk
  replace hif : add_pos pos ⟨d.1, d.2⟩ = n := by simpa using hif
  subst hif
  rw [distance_eq, distance_eq]
  simp only [List.mem_cons, List.not_mem_nil, or_false] at hd
  rcases hd with rfl | rfl | rfl | rfl | rfl | rfl | rfl | rfl <;>
    (simp only [add_pos]; omega)

/-- Distance bound carried through the floodfill loop: `k` further
iterations move cells at most `k` further from the origin. -/
theorem floodLoop_dist (m : Map) (s : Pos) (radius : Nat) :
    ∀ (k : Nat) (st : FState) (b : Int),
      (∀ p ∈ st.current, distance s p ≤ b) →
      (∀ p ∈ st.flood, distance s p ≤ b) →
      ∀ p ∈ (floodLoop m s radius k st).flood, distance s p ≤ b + k := by
  intro k
  induction k with
  | zero =>
    intro st b hc hf p hp
    have := hf p hp
    simp only [floodLoop] at hp
    push_cast
    omega
  | succ n ih =>
    intro st b hc hf
    have hiter : (∀ p ∈ (floodIter m s radius st).current, distance s p ≤ b + 1) ∧
        (∀ p ∈ (floodIter m s radius st).flood, distance s p ≤ b + 1) := by
      unfold floodIter
      refine foldl_pres_mem (floodExpand m s radius)
        (fun st' => (∀ p ∈ st'.current, distance s p ≤ b + 1) ∧
                    (∀ p ∈ st'.flood, distance s p ≤ b + 1))
        st.current ?_ _ ⟨by simp, fun p hp => le_trans (hf p hp) (by omega)⟩
      intro st' pos hpos hP
      unfold floodExpand
      refine foldl_pres_mem
        (fun st'' nc => floodPush st'' nc.1)
        (fun st'' => (∀ p ∈ st''.current, distance s p ≤ b + 1) ∧
                     (∀ p ∈ st''.flood, distance s p ≤ b + 1))
        (astar_neighbors m s pos (some (radius : Int))) ?_ _ hP
      intro st'' nc hnc hP''
      dsimp only
      unfold floodPush
      split_ifs with hmem
      · exact hP''
      · have hnd : distance s nc.1 ≤ b + 1 := by
          have h1 := reachable_dist m s pos nc.1
            (astar_neighbors_mem m s pos nc.1 nc.2 (some (radius : Int)) hnc)
          have h2 := hc pos hpos
          omega
        constructor
        · intro p hp
          rcases List.mem_append.mp hp with hp' | hp'
          · exact hP''.1 p hp'
          · have : p = nc.1 := by simpa using hp'
            subst this
            exact hnd
        · intro p hp
          rcases List.mem_append.mp hp with hp' | hp'
          · exact hP''.2 p hp'
          · have : p = nc.1 := by simpa using hp'
            subst this
            exact hnd
    rw [floodLoop]
    intro p hp
    have := ih (floodIter m s radius st) (b + 1) hiter.1 hiter.2 p hp
    push_cast
    push_cast at this
    omega

/-- Every flood cell stays within straight-line distance `radius`. -/
theorem floodfill_dist (m : Map) (s : Pos) (r : Nat) :
    ∀ p ∈ m.floodfill s r, distance s p ≤ (r : Int) := by
  intro p hp
  have h := floodLoop_dist m s r r ⟨[s], [s], [s]⟩ 0
    (by intro q hq
        have : q = s := by simpa using hq
        subst this
        simp [distance_self])
    (by intro q hq
        have : q = s := by simpa using hq
        subst this
        simp [distance_self])
    p hp
  omega

theorem flatten_replicate_nil : ∀ (n : Nat),
    (List.replicate n ([] : List Pos)).flatten = [] := by
  intro n
  induction n with
  | zero => rfl
  | succ k ih => simp [List.replicate_succ, ih]

/-- C7: ring 0 of `aoe_fill` is exactly `[origin]`, and the flattened
rings contain exactly the flood cells not removed by the
double-blocked dampening rule (beyond the clamped `radius - 2` and
edge-obstructed in both directions). -/
theorem aoe_fill_props (m : Map) (eff : AoeEffect) (s : Pos) (r : Nat) :
    ((m.aoe_fill eff s r).positions.getD 0 [] = [s]) ∧
    ∀ p, (p ∈ (m.aoe_fill eff s r).allPositions ↔
      p ∈ m.floodfill s r ∧
        ¬ aoe_excluded m s (if r > 2 then (r : Int) - 2 else 0) p) := by
  have hpos : (m.aoe_fill eff s r).positions =
      List.foldl (aoeStep m s (if r > 2 then (r : Int) - 2 else 0))
        (List.replicate (r + 1) []) (m.floodfill s r) := rfl
  have hnn : ∀ p : Pos, (0 : Int) ≤ distance s p := by
    intro p
    rw [distance_eq]
    exact Int.natCast_nonneg _
  have hlt : ∀ p ∈ m.floodfill s r,
      (distance s p).toNat < (List.replicate (r + 1) ([] : List Pos)).length := by
    intro p hp
    have h1 := floodfill_dist m s r p hp
    have h2 := hnn p
    simp only [List.length_replicate]
    omega
  have hinv := floodLoop_inv m s r r ⟨[s], [s], [s]⟩
    ⟨rfl, List.nodup_singleton s, rfl⟩
  have hnd : (m.floodfill s r).Nodup := by
    have h1 := hinv.1
    have h2 := hinv.2.1
    unfold Map.floodfill
    rw [← h1]
    exact h2
  have hhd : (m.floodfill s r).head? = some s := hinv.2.2
  obtain ⟨t, ht⟩ : ∃ t, m.floodfill s r = s :: t := by
    cases hfl : m.floodfill s r with
    | nil => rw [hfl] at hhd; simp at hhd
    | cons a t =>
      rw [hfl] at hhd
      have : a = s := by simpa using hhd
      subst this
      exact ⟨t, rfl⟩
  have hsnt : s ∉ t := by
    rw [ht] at hnd
    exact (List.nodup_cons.mp hnd).1
  constructor
  · rw [hpos, getD0_fold m s _ (m.floodfill s r) _ hlt, ht, List.filter_cons,
      if_pos (by
        simp [aoe_keep, Map.is_blocked_by_wall, distance_self])]
    have hfilter : t.filter (fun p =>
        aoe_keep m s (if r > 2 then (r : Int) - 2 else 0) p &&
          decide ((distance s p).toNat = 0)) = [] := by
      rw [List.filter_eq_nil_iff]
      intro x hx
      have hxs : x ≠ s := by
        intro hxe
        subst hxe
        exact hsnt hx
      have hdz : distance s x ≠ 0 := by
        intro hz
        exact hxs ((distance_eq_zero_iff s x).mp hz).symm
      have := hnn x
      simp only [Bool.and_eq_true, decide_eq_true_eq, not_and]
      intro _
      omega
    rw [hfilter]
    have hrep : (List.replicate (r + 1) ([] : List Pos)).getD 0 [] = [] := by
      rw [List.replicate_succ]
      rfl
    rw [hrep]
    rfl
  · intro p
    have hfl : (m.aoe_fill eff s r).allPositions =
        (List.foldl (aoeStep m s (if r > 2 then (r : Int) - 2 else 0))
          (List.replicate (r + 1) []) (m.floodfill s r)).flatten := rfl
    rw [hfl, mem_flatten_fold m s _ (m.floodfill s r) _ hlt p,
      flatten_replicate_nil, aoe_keep_iff]
    simp

end RL
